import Mathlib

/-!
Verification development for the Chain-Reaction game server.

The source is a single Node.js server file.  We embed its pure game logic
shallowly: the mutable 2D board becomes a function from coordinates to
cells, the mutable room object becomes a `Room` record that every
operation threads explicitly, and the unbounded chain-reaction `while`
loop becomes a fuel-indexed recursion (`runCascade`) that returns `none`
when the fuel is exhausted, so theorems about completed moves are
conditioned on the cascade terminating, exactly as the source only
produces a result when its loop finishes.
-/

/-- Grid dimensions (`room.gridSize` in the source). -/
structure GridSize where
  rows : Nat
  cols : Nat
deriving DecidableEq, Repr

/-- A board cell, `{ count, owner }` in the source; `owner: null` becomes `none`. -/
structure Cell where
  count : Nat
  owner : Option String
deriving DecidableEq, Repr

/-- The board `room.board`, a rectangular array in the source, embedded as a
total function; the source only ever reads or writes in-bounds indices. -/
abbrev Board := Nat → Nat → Cell

/-- A player record as built by the `joinRoom` handler. -/
structure Player where
  id : String
  name : String
  isAdmin : Bool
  isActive : Bool
  hasPlayed : Bool
  isSpectator : Bool
deriving DecidableEq, Repr

/-- One room of the in-memory `rooms` table. -/
structure Room where
  players : List Player
  gridSize : GridSize
  board : Board
  currentTurn : Nat
  gameStarted : Bool
  lastMove : Option (Nat × Nat)

/-- Point update of the board: the source's `room.board[r][c] = v`. -/
def setCell (b : Board) (r c : Nat) (v : Cell) : Board :=
  fun i j => if i = r ∧ j = c then v else b i j

/-- The all-empty board built by the nested loops in `initializeGame` and
in the `playAgain` handler. -/
def emptyBoard : Board := fun _ _ => { count := 0, owner := none }

/-- Source `initializeGame(room)`: fresh empty board, first player's turn,
game marked started. -/
def initializeGame (room : Room) : Room :=
  { room with board := emptyBoard, currentTurn := 0, gameStarted := true }

/-- Source `getCriticalMass(row, col, gridSize)`: one increment per
neighbour-direction test, in source order (up, down, left, right). -/
def getCriticalMass (row col : Nat) (g : GridSize) : Nat :=
  (if 0 < row then 1 else 0) + (if row < g.rows - 1 then 1 else 0) +
  (if 0 < col then 1 else 0) + (if col < g.cols - 1 then 1 else 0)

/-- The source's `directions` array `[[1,0],[-1,0],[0,1],[0,-1]]`. -/
def directions : List (Int × Int) := [(1, 0), (-1, 0), (0, 1), (0, -1)]

/-- The in-bounds test `nr >= 0 && nr < rows && nc >= 0 && nc < cols`
guarding every neighbour access, on the signed coordinates the source
computes. -/
def inBoundsI (g : GridSize) (nr nc : Int) : Prop :=
  0 ≤ nr ∧ nr < (g.rows : Int) ∧ 0 ≤ nc ∧ nc < (g.cols : Int)

instance (g : GridSize) (nr nc : Int) : Decidable (inBoundsI g nr nc) := by
  unfold inBoundsI; infer_instance

/-- In-bounds predicate on unsigned positions. -/
def inBoundsP (g : GridSize) (p : Nat × Nat) : Prop :=
  p.1 < g.rows ∧ p.2 < g.cols

instance (g : GridSize) (p : Nat × Nat) : Decidable (inBoundsP g p) := by
  unfold inBoundsP; infer_instance

/-- The in-bounds orthogonal neighbours of a cell, in the order the
explosion loop visits them. -/
def neighborsList (g : GridSize) (r c : Nat) : List (Nat × Nat) :=
  directions.filterMap (fun d =>
    if inBoundsI g ((r : Int) + d.1) ((c : Int) + d.2) then
      some (((r : Int) + d.1).toNat, ((c : Int) + d.2).toNat)
    else none)

/-- One neighbour update of the explosion loop body: add an orb, transfer
ownership to the captured owner, and enqueue the neighbour if it now meets
its critical mass (`queue.push`). -/
def explStep (g : GridSize) (owner : Option String)
    (acc : Board × List (Nat × Nat)) (p : Nat × Nat) : Board × List (Nat × Nat) :=
  let cell := acc.1 p.1 p.2
  let cell2 : Cell := { count := cell.count + 1, owner := owner }
  let q2 := if getCriticalMass p.1 p.2 g ≤ cell2.count then acc.2 ++ [p] else acc.2
  (setCell acc.1 p.1 p.2 cell2, q2)

/-- One explosion: capture the owner, reset the cell, then feed each
in-bounds neighbour.  Returns the updated board and the newly enqueued
positions. -/
def explodeAt (g : GridSize) (b : Board) (r c : Nat) : Board × List (Nat × Nat) :=
  let owner := (b r c).owner
  let b1 := setCell b r c { count := 0, owner := none }
  (neighborsList g r c).foldl (explStep g owner) (b1, [])

/-- The chain-reaction `while (queue.length > 0)` loop, with explicit fuel:
`none` means the loop had not terminated within `fuel` dequeues.  A dequeued
cell below its (recomputed) critical mass is skipped, as in the source. -/
def runCascade (g : GridSize) : Nat → Board → List (Nat × Nat) → Option Board
  | _, b, [] => some b
  | 0, _, _ :: _ => none
  | fuel + 1, b, (r, c) :: rest =>
    if (b r c).count < getCriticalMass r c g then
      runCascade g fuel b rest
    else
      let res := explodeAt g b r c
      runCascade g fuel res.1 (rest ++ res.2)

/-- The effect of `room.players.find(p => p.id === owner).isActive = true`:
mark the first player with the given id active. -/
def markFirstActive (o : String) : List Player → List Player
  | [] => []
  | p :: ps =>
    if p.id == o then { p with isActive := true } :: ps
    else p :: markFirstActive o ps

/-- Row-major list of all board positions, the iteration order of the
nested `for` loops over the board. -/
def allPositions (g : GridSize) : List (Nat × Nat) :=
  (List.range g.rows).flatMap (fun i => (List.range g.cols).map (fun j => (i, j)))

/-- One iteration of the board sweep in `processMove`'s activity
recomputation: a cell with an owner marks that owner active. -/
def sweepStep (b : Board) (acc : List Player) (pos : Nat × Nat) : List Player :=
  match (b pos.1 pos.2).owner with
  | some o => markFirstActive o acc
  | none => acc

/-- The post-move recomputation of `isActive`: players who have not played
are active by default, everyone else inactive; then every cell with an
owner marks that owner active. -/
def recomputeActive (g : GridSize) (b : Board) (players : List Player) : List Player :=
  let ps := players.map (fun p => { p with isActive := !p.hasPlayed })
  (allPositions g).foldl (sweepStep b) ps

/-- The win check of `processMove`: only when every non-spectator has
played and more than one non-spectator is present; the winner is the sole
active non-spectator, if there is exactly one. -/
def computeWinner (players : List Player) : Option Player :=
  let nonSpectatorPlayers := players.filter (fun p => !p.isSpectator)
  let playersWhoPlayed := nonSpectatorPlayers.filter (fun p => p.hasPlayed)
  if playersWhoPlayed.length = nonSpectatorPlayers.length ∧ 1 < nonSpectatorPlayers.length then
    let activePlayers := players.filter (fun p => p.isActive && !p.isSpectator)
    if activePlayers.length = 1 then activePlayers.head? else none
  else none

/-- The cyclic next-turn scan: step `(next+1) % length` up to `length`
times, stopping at the first active non-spectator. -/
def nextActiveTurnAux (players : List Player) : Nat → Nat → Nat
  | 0, next => next
  | i + 1, next =>
    let next2 := (next + 1) % players.length
    match players.get? next2 with
    | some p => if p.isActive && !p.isSpectator then next2 else nextActiveTurnAux players i next2
    | none => nextActiveTurnAux players i next2

/-- Advance `currentTurn` to the next active non-spectator player; used
identically by `processMove` and `skipPlayerTurn` in the source. -/
def nextActiveTurn (players : List Player) (current : Nat) : Nat :=
  nextActiveTurnAux players players.length current

/-- The four error strings `processMove` can return. -/
inductive MoveError
  | gameNotActive
  | notYourTurn
  | spectatorForbidden
  | invalidMove
deriving DecidableEq, Repr

/-- The object a successful `processMove` returns. -/
structure MoveResult where
  board : Board
  currentTurnId : Option String
  players : List Player
  winner : Option Player
  lastMove : Option (Nat × Nat)

/-- The mutating tail of `processMove` after all four validity checks have
passed: place the orb, run the cascade, recompute activity, check the win
condition, advance the turn. -/
def moveBody (fuel : Nat) (room : Room) (playerSocketId : String) (row col : Nat)
    (currentPlayer : Player) : Option (Room × MoveResult) :=
  let cell := room.board row col
  let board1 := setCell room.board row col { count := cell.count + 1, owner := some playerSocketId }
  let players1 := room.players.set room.currentTurn { currentPlayer with hasPlayed := true }
  let queue0 : List (Nat × Nat) :=
    if getCriticalMass row col room.gridSize ≤ cell.count + 1 then [(row, col)] else []
  match runCascade room.gridSize fuel board1 queue0 with
  | none => none
  | some board2 =>
    let players2 := recomputeActive room.gridSize board2 players1
    let winner := computeWinner players2
    let gameStarted2 := if winner.isSome then false else room.gameStarted
    let currentTurn2 :=
      if winner.isSome then room.currentTurn else nextActiveTurn players2 room.currentTurn
    let room2 : Room :=
      { room with board := board2, players := players2, currentTurn := currentTurn2,
                  gameStarted := gameStarted2, lastMove := some (row, col) }
    some (room2,
      { board := board2,
        currentTurnId :=
          if winner.isSome then none else (players2.get? currentTurn2).map (fun p => p.id),
        players := players2,
        winner := winner,
        lastMove := some (row, col) })

/-- Source `processMove(room, playerSocketId, row, col)`.  The outer `none`
marks the executions that produce no return value in JavaScript: an invalid
`currentTurn` index (a thrown `TypeError`) or a non-terminating cascade.
Errors are returned before any mutation, so the error cases carry the
untouched room. -/
def processMove (fuel : Nat) (room : Room) (playerSocketId : String) (row col : Nat) :
    Option (Room × Except MoveError MoveResult) :=
  if !room.gameStarted then
    some (room, Except.error MoveError.gameNotActive)
  else
    match room.players.get? room.currentTurn with
    | none => none
    | some currentPlayer =>
      if currentPlayer.id ≠ playerSocketId then
        some (room, Except.error MoveError.notYourTurn)
      else if ((room.players.find? (fun p => p.id == playerSocketId)).map
          (fun p => p.isSpectator)).getD false then
        some (room, Except.error MoveError.spectatorForbidden)
      else if (room.board row col).owner ≠ none ∧
          (room.board row col).owner ≠ some playerSocketId then
        some (room, Except.error MoveError.invalidMove)
      else
        (moveBody fuel room playerSocketId row col currentPlayer).map
          (fun x => (x.1, Except.ok x.2))

/-- Source `skipPlayerTurn(roomId)` without its broadcasts: advance the
turn to the next active non-spectator if a game is running. -/
def skipPlayerTurn (room : Room) : Room :=
  if !room.gameStarted then room
  else { room with currentTurn := nextActiveTurn room.players room.currentTurn }

/-- The turn-timer expiry callback in `startTurnTimer`: it first runs
`skipPlayerTurn` and only then formats the chat notice from
`room.players[room.currentTurn].name`, i.e. from the already-advanced
turn index.  Returns the updated room and the name placed in the notice. -/
def timerExpireOutcome (room : Room) : Room × Option String :=
  let room2 := skipPlayerTurn room
  (room2, (room2.players.get? room2.currentTurn).map (fun p => p.name))

/-- The `joinRoom` handler restricted to an existing room: a duplicate id
is a no-op, otherwise a fresh player is appended; a joiner during a
running game becomes a spectator. -/
def joinRoom (room : Room) (socketId playerName : String) (isAdm : Bool) : Room :=
  if (room.players.find? (fun p => p.id == socketId)).isSome then room
  else
    { room with players := room.players ++
        [{ id := socketId, name := playerName, isAdmin := isAdm,
           isActive := true, hasPlayed := false, isSpectator := room.gameStarted }] }

/-- The `playAgain` handler: admin-gated full reset (players reactivated,
spectators promoted, empty board, turn back to player 0). -/
def playAgain (room : Room) (requesterId : String) : Except String Room :=
  match room.players.find? (fun p => p.id == requesterId) with
  | none => Except.error "Only admin can restart the game"
  | some requestingPlayer =>
    if !requestingPlayer.isAdmin then Except.error "Only admin can restart the game"
    else Except.ok
      { room with
        players := room.players.map
          (fun p => { p with isActive := true, hasPlayed := false, isSpectator := false }),
        lastMove := none,
        board := emptyBoard,
        currentTurn := 0,
        gameStarted := true }

/-- The per-room body of the `disconnect` handler: remove the player; if
the game is running and the player now at `currentTurn` is the
disconnected socket (tested after removal), skip the turn; delete the
room (`none`) when it empties. -/
def handleDisconnect (room : Room) (socketId : String) : Option Room :=
  match room.players.findIdx? (fun p => p.id == socketId) with
  | none => some room
  | some playerIndex =>
    let players1 := room.players.eraseIdx playerIndex
    let room1 := { room with players := players1 }
    let room2 :=
      if room1.gameStarted ∧
          (room1.players.get? room1.currentTurn).map (fun p => p.id) = some socketId then
        if 0 < room1.players.length then skipPlayerTurn room1 else room1
      else room1
    if room2.players.length = 0 then none else some room2

/-- Total number of orbs on the in-bounds part of a board. -/
def totalOrbs (g : GridSize) (b : Board) : Nat :=
  ∑ i in Finset.range g.rows, ∑ j in Finset.range g.cols, (b i j).count

/-- The cell invariant of the data model: a cell is empty exactly when it
has no owner. -/
def cellInv (g : GridSize) (b : Board) : Prop :=
  ∀ r, r < g.rows → ∀ c, c < g.cols → ((b r c).count = 0 ↔ (b r c).owner = none)

instance (g : GridSize) (b : Board) : Decidable (cellInv g b) := by
  unfold cellInv; infer_instance

/-- Discriminator for successful move results. -/
def moveIsOk : Except MoveError MoveResult → Bool
  | Except.ok _ => true
  | Except.error _ => false

/-- Evolution order on player records during the ownership sweep: identity
fields are unchanged and activity can only be switched on. -/
def PlayerLE (p q : Player) : Prop :=
  q.id = p.id ∧ q.name = p.name ∧ q.isAdmin = p.isAdmin ∧
  q.isSpectator = p.isSpectator ∧ q.hasPlayed = p.hasPlayed ∧
  (p.isActive = true → q.isActive = true)

/-- Pointwise evolution order on player lists. -/
def PlayersLE (l0 l : List Player) : Prop :=
  l.length = l0.length ∧
  ∀ k p, l0.get? k = some p → ∃ q, l.get? k = some q ∧ PlayerLE p q

/-! ### Concrete rooms used as test vectors for the theorems below -/

/-- A non-spectator admin who has not played yet. -/
def pAlice : Player :=
  { id := "A", name := "Alice", isAdmin := true, isActive := true,
    hasPlayed := false, isSpectator := false }

/-- A non-spectator non-admin who has not played yet. -/
def pBob : Player :=
  { id := "B", name := "Bob", isAdmin := false, isActive := true,
    hasPlayed := false, isSpectator := false }

/-- Bob after having completed a move. -/
def pBobPlayed : Player :=
  { id := "B", name := "Bob", isAdmin := false, isActive := true,
    hasPlayed := true, isSpectator := false }

/-- A stable 3×3 board, all orbs owned by the mover, arranged so that the
corner cell (0,0) is fed twice during one cascade and explodes holding
3 orbs against a critical mass of 2. -/
def c1Board : Board := fun r c =>
  if r = 0 ∧ c = 0 then { count := 1, owner := some "A" }
  else if r = 0 ∧ c = 1 then { count := 2, owner := some "A" }
  else if r = 1 ∧ c = 0 then { count := 2, owner := some "A" }
  else if r = 1 ∧ c = 1 then { count := 3, owner := some "A" }
  else { count := 0, owner := none }

/-- Room exercising the orb-losing cascade. -/
def c1Room : Room :=
  { players := [pAlice], gridSize := { rows := 3, cols := 3 }, board := c1Board,
    currentTurn := 0, gameStarted := true, lastMove := none }

/-- Two fresh players, Alice to move. -/
def c5Room : Room :=
  { players := [pAlice, pBob], gridSize := { rows := 2, cols := 2 }, board := emptyBoard,
    currentTurn := 0, gameStarted := true, lastMove := none }

/-- Two players with the mover Bob at index 1, about to disconnect. -/
def c6Room : Room :=
  { players := [pAlice, pBob], gridSize := { rows := 2, cols := 2 }, board := emptyBoard,
    currentTurn := 1, gameStarted := true, lastMove := none }

/-- A fresh 2×2 game, Alice to move. -/
def w7Room : Room :=
  { players := [pAlice, pBob], gridSize := { rows := 2, cols := 2 }, board := emptyBoard,
    currentTurn := 0, gameStarted := true, lastMove := none }

/-- Fallback result used only to give total extraction functions a value. -/
def defaultMoveResult : MoveResult :=
  { board := emptyBoard, currentTurnId := none, players := [], winner := none, lastMove := none }

/-- The completed move of Alice at (0,0) in `w7Room`. -/
def w7Pair : Room × Except MoveError MoveResult :=
  (processMove 4 w7Room "A" 0 0).getD (w7Room, Except.error MoveError.gameNotActive)

/-- The success payload of `w7Pair`. -/
def w7Res : MoveResult :=
  match w7Pair.2 with
  | Except.ok r => r
  | Except.error _ => defaultMoveResult

/-- Board on which Alice's next move wins: she owns (0,0), Bob has played
but owns nothing. -/
def w9Board : Board := fun r c =>
  if r = 0 ∧ c = 0 then { count := 1, owner := some "A" } else { count := 0, owner := none }

/-- Room in which Alice's move at (0,1) declares her the winner. -/
def w9Room : Room :=
  { players := [pAlice, pBobPlayed], gridSize := { rows := 2, cols := 2 }, board := w9Board,
    currentTurn := 0, gameStarted := true, lastMove := none }

/-- The completed winning move of Alice at (0,1) in `w9Room`. -/
def w9Pair : Room × Except MoveError MoveResult :=
  (processMove 4 w9Room "A" 0 1).getD (w9Room, Except.error MoveError.gameNotActive)

/-- The success payload of `w9Pair`. -/
def w9Res : MoveResult :=
  match w9Pair.2 with
  | Except.ok r => r
  | Except.error _ => defaultMoveResult

/-- The declared winner of the `w9Room` move. -/
def w9Winner : Player :=
  w9Res.winner.getD
    { id := "", name := "", isAdmin := false, isActive := false,
      hasPlayed := false, isSpectator := false }

/-! ### Neighbour-list structure -/

theorem filterMap_four {α β : Type} (f : α → Option β) (a b c d : α) :
    List.filterMap f [a, b, c, d] =
      (f a).toList ++ (f b).toList ++ (f c).toList ++ (f d).toList := by
  cases ha : f a <;> cases hb : f b <;> cases hc : f c <;> cases hd : f d <;>
    simp [List.filterMap_cons, ha, hb, hc, hd]

/-- For an in-bounds cell the neighbour list is the concatenation of up to
four singleton lists, one per direction, each guarded exactly by the
source's bounds test. -/
theorem neighborsList_break (g : GridSize) (r c : Nat)
    (hr : r < g.rows) (hc : c < g.cols) :
    neighborsList g r c =
      (if r + 1 < g.rows then [(r + 1, c)] else []) ++
      (if 0 < r then [(r - 1, c)] else []) ++
      (if c + 1 < g.cols then [(r, c + 1)] else []) ++
      (if 0 < c then [(r, c - 1)] else []) := by
  unfold neighborsList directions
  rw [filterMap_four]
  simp only [inBoundsI]
  have e1 : (0 ≤ (r : Int) + 1 ∧ (r : Int) + 1 < (g.rows : Int) ∧
      0 ≤ (c : Int) + 0 ∧ (c : Int) + 0 < (g.cols : Int)) ↔ r + 1 < g.rows := by omega
  have e2 : (0 ≤ (r : Int) + -1 ∧ (r : Int) + -1 < (g.rows : Int) ∧
      0 ≤ (c : Int) + 0 ∧ (c : Int) + 0 < (g.cols : Int)) ↔ 0 < r := by omega
  have e3 : (0 ≤ (r : Int) + 0 ∧ (r : Int) + 0 < (g.rows : Int) ∧
      0 ≤ (c : Int) + 1 ∧ (c : Int) + 1 < (g.cols : Int)) ↔ c + 1 < g.cols := by omega
  have e4 : (0 ≤ (r : Int) + 0 ∧ (r : Int) + 0 < (g.rows : Int) ∧
      0 ≤ (c : Int) + -1 ∧ (c : Int) + -1 < (g.cols : Int)) ↔ 0 < c := by omega
  simp only [e1, e2, e3, e4]
  split_ifs <;> simp_all [Option.toList] <;> omega

/-- The critical mass of an in-bounds cell is exactly the number of its
in-bounds orthogonal neighbours. -/
theorem length_neighborsList (g : GridSize) (r c : Nat)
    (hr : r < g.rows) (hc : c < g.cols) :
    (neighborsList g r c).length = getCriticalMass r c g := by
  rw [neighborsList_break g r c hr hc]
  unfold getCriticalMass
  have e : (r < g.rows - 1) ↔ (r + 1 < g.rows) := by omega
  have e2 : (c < g.cols - 1) ↔ (c + 1 < g.cols) := by omega
  simp only [e, e2, List.length_append]
  split_ifs <;> simp

/-- Every listed neighbour of an in-bounds cell is in-bounds. -/
theorem neighborsList_inBounds (g : GridSize) (r c : Nat)
    (hr : r < g.rows) (hc : c < g.cols) :
    ∀ p ∈ neighborsList g r c, inBoundsP g p := by
  rw [neighborsList_break g r c hr hc]
  intro p hp
  simp only [List.mem_append, List.mem_ite_nil_right, List.mem_singleton] at hp
  unfold inBoundsP
  rcases hp with (((⟨h1, h2⟩ | ⟨h1, h2⟩) | ⟨h1, h2⟩) | ⟨h1, h2⟩) <;> subst h2 <;>
    constructor <;> simp <;> omega

/-- A cell is not its own neighbour. -/
theorem neighborsList_not_self (g : GridSize) (r c : Nat)
    (hr : r < g.rows) (hc : c < g.cols) :
    (r, c) ∉ neighborsList g r c := by
  rw [neighborsList_break g r c hr hc]
  intro hp
  simp only [List.mem_append, List.mem_ite_nil_right, List.mem_singleton,
    Prod.mk.injEq] at hp
  omega

/-- The neighbour list of an in-bounds cell has no duplicates. -/
theorem neighborsList_nodup (g : GridSize) (r c : Nat)
    (hr : r < g.rows) (hc : c < g.cols) :
    (neighborsList g r c).Nodup := by
  rw [neighborsList_break g r c hr hc]
  split_ifs <;>
    simp_all [List.nodup_cons, List.Nodup, Prod.mk.injEq] <;> omega

/-- On a grid with both dimensions at least 2, every in-bounds cell has a
critical mass of at least 2. -/
theorem getCriticalMass_pos (g : GridSize) (r c : Nat)
    (h2r : 2 ≤ g.rows) (h2c : 2 ≤ g.cols) (hr : r < g.rows) (hc : c < g.cols) :
    2 ≤ getCriticalMass r c g := by
  unfold getCriticalMass
  split_ifs <;> omega

/-! ### Orb counting -/

/-- Updating one in-bounds cell changes the total orb count by the
difference of the two cell counts. -/
theorem totalOrbs_setCell (g : GridSize) (b : Board) (r c : Nat) (v : Cell)
    (hr : r < g.rows) (hc : c < g.cols) :
    totalOrbs g (setCell b r c v) + (b r c).count = totalOrbs g b + v.count := by
  unfold totalOrbs setCell
  have hrm : r ∈ Finset.range g.rows := Finset.mem_range.mpr hr
  have hcm : c ∈ Finset.range g.cols := Finset.mem_range.mpr hc
  rw [← Finset.sum_erase_add (Finset.range g.rows)
        (fun i => ∑ j in Finset.range g.cols, (if i = r ∧ j = c then v else b i j).count) hrm,
      ← Finset.sum_erase_add (Finset.range g.rows)
        (fun i => ∑ j in Finset.range g.cols, (b i j).count) hrm]
  have houter : ∑ i in (Finset.range g.rows).erase r,
      (∑ j in Finset.range g.cols, (if i = r ∧ j = c then v else b i j).count) =
      ∑ i in (Finset.range g.rows).erase r,
      (∑ j in Finset.range g.cols, (b i j).count) := by
    refine Finset.sum_congr rfl (fun i hi => ?_)
    have hir : i ≠ r := (Finset.mem_erase.mp hi).1
    refine Finset.sum_congr rfl (fun j _ => ?_)
    simp [hir]
  have hinner1 : ∑ j in Finset.range g.cols, (if r = r ∧ j = c then v else b r j).count =
      (∑ j in (Finset.range g.cols).erase c, (b r j).count) + v.count := by
    rw [← Finset.sum_erase_add (Finset.range g.cols)
          (fun j => (if r = r ∧ j = c then v else b r j).count) hcm]
    congr 1
    · refine Finset.sum_congr rfl (fun j hj => ?_)
      have hjc : j ≠ c := (Finset.mem_erase.mp hj).1
      simp [hjc]
    · simp
  have hinner2 : ∑ j in Finset.range g.cols, (b r j).count =
      (∑ j in (Finset.range g.cols).erase c, (b r j).count) + (b r c).count := by
    rw [← Finset.sum_erase_add (Finset.range g.cols) (fun j => (b r j).count) hcm]
  rw [houter, hinner1, hinner2]
  omega

/-- Feeding a list of in-bounds neighbours adds exactly one orb per
neighbour to the total. -/
theorem explodeFold_totalOrbs (g : GridSize) (o : Option String) :
    ∀ (L : List (Nat × Nat)) (bb : Board) (acc : List (Nat × Nat)),
      (∀ p ∈ L, inBoundsP g p) →
      totalOrbs g (L.foldl (explStep g o) (bb, acc)).1 = totalOrbs g bb + L.length := by
  intro L
  induction L with
  | nil => intro bb acc _; simp
  | cons hd tl ih =>
    intro bb acc hb
    have hp : inBoundsP g hd := hb hd (List.mem_cons_self hd tl)
    rw [List.foldl_cons]
    have hstep : explStep g o (bb, acc) hd =
        (setCell bb hd.1 hd.2 { count := (bb hd.1 hd.2).count + 1, owner := o },
         if getCriticalMass hd.1 hd.2 g ≤ (bb hd.1 hd.2).count + 1
           then acc ++ [hd] else acc) := rfl
    rw [hstep, ih _ _ (fun q hq => hb q (List.mem_cons_of_mem hd hq))]
    have hset := totalOrbs_setCell g bb hd.1 hd.2
      { count := (bb hd.1 hd.2).count + 1, owner := o } hp.1 hp.2
    simp only [List.length_cons]
    simp at hset
    omega

/-- One explosion of an in-bounds cell removes that cell's orbs and adds
one orb per in-bounds neighbour (i.e. per unit of critical mass). -/
theorem explodeAt_totalOrbs (g : GridSize) (b : Board) (r c : Nat)
    (hr : r < g.rows) (hc : c < g.cols) :
    totalOrbs g (explodeAt g b r c).1 + (b r c).count =
      totalOrbs g b + getCriticalMass r c g := by
  show totalOrbs g ((neighborsList g r c).foldl (explStep g (b r c).owner)
      (setCell b r c { count := 0, owner := none }, [])).1 + (b r c).count = _
  rw [explodeFold_totalOrbs g ((b r c).owner) (neighborsList g r c) _ []
      (neighborsList_inBounds g r c hr hc)]
  have h1 := totalOrbs_setCell g b r c { count := 0, owner := none } hr hc
  simp only [Nat.add_zero] at h1
  rw [length_neighborsList g r c hr hc]
  omega

/-! ### The cascade loop invariant engine -/

/-- Any property of board and queue preserved by the two branches of the
loop body (skip a stale entry / explode) holds when the cascade
terminates. -/
theorem runCascade_inv (g : GridSize) (P : Board → List (Nat × Nat) → Prop)
    (hskip : ∀ b r c rest, P b ((r, c) :: rest) →
      (b r c).count < getCriticalMass r c g → P b rest)
    (hexpl : ∀ b r c rest, P b ((r, c) :: rest) →
      ¬ (b r c).count < getCriticalMass r c g →
      P (explodeAt g b r c).1 (rest ++ (explodeAt g b r c).2)) :
    ∀ fuel b q b2, P b q → runCascade g fuel b q = some b2 → P b2 [] := by
  intro fuel
  induction fuel with
  | zero =>
    intro b q b2 hP hrun
    cases q with
    | nil =>
      simp only [runCascade, Option.some.injEq] at hrun
      exact hrun ▸ hP
    | cons hd tl => simp [runCascade] at hrun
  | succ n ih =>
    intro b q b2 hP hrun
    cases q with
    | nil =>
      simp only [runCascade, Option.some.injEq] at hrun
      exact hrun ▸ hP
    | cons hd tl =>
      rcases hd with ⟨r, c⟩
      simp only [runCascade] at hrun
      by_cases hlt : (b r c).count < getCriticalMass r c g
      · rw [if_pos hlt] at hrun
        exact ih _ _ _ (hskip b r c tl hP hlt) hrun
      · rw [if_neg hlt] at hrun
        exact ih _ _ _ (hexpl b r c tl hP hlt) hrun

/-- Pointwise description of one explosion's feed loop over a
duplicate-free neighbour list: untouched cells keep their value, each
listed cell gains one orb and the captured owner, and the enqueued
positions all come from the list. -/
theorem explodeFold_spec (g : GridSize) (o : Option String) :
    ∀ (L : List (Nat × Nat)) (bb : Board) (acc : List (Nat × Nat)), L.Nodup →
      ((∀ p : Nat × Nat, p ∉ L → (L.foldl (explStep g o) (bb, acc)).1 p.1 p.2 = bb p.1 p.2) ∧
       (∀ p ∈ L, (L.foldl (explStep g o) (bb, acc)).1 p.1 p.2 =
         { count := (bb p.1 p.2).count + 1, owner := o }) ∧
       (∃ extra, (L.foldl (explStep g o) (bb, acc)).2 = acc ++ extra ∧
         ∀ p ∈ extra, p ∈ L)) := by
  intro L
  induction L with
  | nil =>
    intro bb acc _
    refine ⟨fun p _ => rfl, fun p hp => absurd hp (List.not_mem_nil p), [], by simp, by simp⟩
  | cons hd tl ih =>
    intro bb acc hnd
    have hhd : hd ∉ tl := (List.nodup_cons.mp hnd).1
    have htl : tl.Nodup := (List.nodup_cons.mp hnd).2
    rw [List.foldl_cons]
    have hstep : explStep g o (bb, acc) hd =
        (setCell bb hd.1 hd.2 { count := (bb hd.1 hd.2).count + 1, owner := o },
         if getCriticalMass hd.1 hd.2 g ≤ (bb hd.1 hd.2).count + 1
           then acc ++ [hd] else acc) := rfl
    rw [hstep]
    obtain ⟨ih1, ih2, extra, ihq, ihsub⟩ := ih
      (setCell bb hd.1 hd.2 { count := (bb hd.1 hd.2).count + 1, owner := o })
      (if getCriticalMass hd.1 hd.2 g ≤ (bb hd.1 hd.2).count + 1 then acc ++ [hd] else acc)
      htl
    refine ⟨?_, ?_, ?_⟩
    · intro p hp
      have hptl : p ∉ tl := fun h => hp (List.mem_cons_of_mem hd h)
      have hphd : p ≠ hd := fun h => hp (h ▸ List.mem_cons_self hd tl)
      rw [ih1 p hptl]
      unfold setCell
      have : ¬ (p.1 = hd.1 ∧ p.2 = hd.2) := by
        intro hcon
        exact hphd (Prod.ext hcon.1 hcon.2)
      simp [this]
    · intro p hp
      rcases List.mem_cons.mp hp with hphd | hptl
      · subst hphd
        rw [ih1 p hhd]
        unfold setCell
        simp
      · rw [ih2 p hptl]
        have hne : p ≠ hd := fun h => hhd (h ▸ hptl)
        have : ¬ (p.1 = hd.1 ∧ p.2 = hd.2) := by
          intro hcon
          exact hne (Prod.ext hcon.1 hcon.2)
        unfold setCell
        simp [this]
    · refine ⟨(if getCriticalMass hd.1 hd.2 g ≤ (bb hd.1 hd.2).count + 1
          then [hd] else []) ++ extra, ?_, ?_⟩
      · rw [ihq]
        split_ifs <;> simp
      · intro p hp
        rcases List.mem_append.mp hp with hin | hin
        · rcases (by split_ifs at hin <;> simp_all : p = hd) with rfl
          exact List.mem_cons_self p tl
        · exact List.mem_cons_of_mem hd (ihsub p hin)

/-! ### Shape lemmas for processMove -/

/-- A successful `processMove` implies the four validity checks passed and
the result comes from the mutating tail. -/
theorem processMove_ok_elim (fuel : Nat) (room : Room) (pid : String) (row col : Nat)
    (r2 : Room) (res : MoveResult)
    (h : processMove fuel room pid row col = some (r2, Except.ok res)) :
    ∃ cp, room.gameStarted = true ∧
      room.players.get? room.currentTurn = some cp ∧
      cp.id = pid ∧
      ((room.players.find? (fun p => p.id == pid)).map
        (fun p => p.isSpectator)).getD false = false ∧
      ((room.board row col).owner = none ∨ (room.board row col).owner = some pid) ∧
      moveBody fuel room pid row col cp = some (r2, res) := by
  unfold processMove at h
  split at h
  · simp at h
  · rename_i hgs
    have hgs2 : room.gameStarted = true := by
      cases hb : room.gameStarted
      · rw [hb] at hgs; simp at hgs
      · rfl
    split at h
    · simp at h
    · rename_i cp hcp
      split at h
      · simp at h
      · rename_i hid
        have hid2 : cp.id = pid := not_not.mp hid
        split at h
        · simp at h
        · rename_i hspec
          split at h
          · simp at h
          · rename_i hown
            cases hmb : moveBody fuel room pid row col cp with
            | none => rw [hmb] at h; simp at h
            | some pr =>
              rw [hmb] at h
              simp only [Option.map_some', Option.some.injEq, Prod.mk.injEq,
                Except.ok.injEq] at h
              refine ⟨cp, hgs2, hcp, hid2, ?_, ?_, ?_⟩
              · cases hcv : ((room.players.find? (fun p => p.id == pid)).map
                    (fun p => p.isSpectator)).getD false
                · rfl
                · exact absurd hcv hspec
              · tauto
              · rw [hmb]
                exact congrArg some (Prod.ext h.1 h.2)

/-- Decomposition of the mutating tail of a completed move: the cascade
terminated on the board with the placed orb, and the returned room and
result are assembled from its output. -/
theorem moveBody_some_elim (fuel : Nat) (room : Room) (pid : String) (row col : Nat)
    (cp : Player) (r2 : Room) (res : MoveResult)
    (h : moveBody fuel room pid row col cp = some (r2, res)) :
    ∃ board2,
      runCascade room.gridSize fuel
        (setCell room.board row col
          { count := (room.board row col).count + 1, owner := some pid })
        (if getCriticalMass row col room.gridSize ≤ (room.board row col).count + 1
          then [(row, col)] else []) = some board2 ∧
      r2.board = board2 ∧
      r2.players = recomputeActive room.gridSize board2
        (room.players.set room.currentTurn { cp with hasPlayed := true }) ∧
      r2.gridSize = room.gridSize ∧
      res.winner = computeWinner r2.players ∧
      res.players = r2.players := by
  simp only [moveBody] at h
  split at h
  · simp at h
  · rename_i board2 hrc
    simp only [Option.some.injEq, Prod.mk.injEq] at h
    obtain ⟨h1, h2⟩ := h
    refine ⟨board2, hrc, ?_, ?_, ?_, ?_, ?_⟩
    · rw [← h1]
    · rw [← h1]
    · rw [← h1]
    · rw [← h2, ← h1]
    · rw [← h2, ← h1]

/-! ### The activity sweep -/

theorem playersLE_refl (l : List Player) : PlayersLE l l :=
  ⟨rfl, fun _ p h => ⟨p, h, rfl, rfl, rfl, rfl, rfl, fun ha => ha⟩⟩

theorem playersLE_trans {l0 l1 l2 : List Player}
    (h01 : PlayersLE l0 l1) (h12 : PlayersLE l1 l2) : PlayersLE l0 l2 := by
  refine ⟨h12.1.trans h01.1, fun k p hp => ?_⟩
  obtain ⟨q, hq, e1, e2, e3, e4, e5, e6⟩ := h01.2 k p hp
  obtain ⟨r, hr, f1, f2, f3, f4, f5, f6⟩ := h12.2 k q hq
  exact ⟨r, hr, f1.trans e1, f2.trans e2, f3.trans e3, f4.trans e4, f5.trans e5,
    fun ha => f6 (e6 ha)⟩

theorem markFirstActive_le (o : String) :
    ∀ l : List Player, PlayersLE l (markFirstActive o l) := by
  intro l
  induction l with
  | nil => exact playersLE_refl []
  | cons a t ih =>
    unfold markFirstActive
    split_ifs with hao
    · refine ⟨by simp, fun k p hp => ?_⟩
      cases k with
      | zero =>
        simp only [List.get?] at hp ⊢
        exact ⟨{ a with isActive := true }, rfl, by
          cases hp; exact ⟨rfl, rfl, rfl, rfl, rfl, fun _ => rfl⟩⟩
      | succ k =>
        simp only [List.get?] at hp ⊢
        exact ⟨p, hp, rfl, rfl, rfl, rfl, rfl, fun ha => ha⟩
    · refine ⟨by simp [ih.1], fun k p hp => ?_⟩
      cases k with
      | zero =>
        simp only [List.get?] at hp ⊢
        exact ⟨a, rfl, by cases hp; exact ⟨rfl, rfl, rfl, rfl, rfl, fun ha => ha⟩⟩
      | succ k =>
        simp only [List.get?] at hp ⊢
        exact ih.2 k p hp

theorem markFirstActive_ids (o : String) :
    ∀ l : List Player, (markFirstActive o l).map (fun p => p.id) = l.map (fun p => p.id) := by
  intro l
  induction l with
  | nil => rfl
  | cons a t ih =>
    unfold markFirstActive
    split_ifs with hao <;> simp [ih]

/-- With duplicate-free ids, marking an id active updates exactly the
player holding that id, wherever it sits in the list. -/
theorem markFirstActive_marks (o : String) :
    ∀ (l : List Player) (k : Nat) (p : Player),
      (l.map (fun q => q.id)).Nodup → l.get? k = some p → p.id = o →
      (markFirstActive o l).get? k = some { p with isActive := true } := by
  intro l
  induction l with
  | nil => intro k p _ hp _; simp [List.get?] at hp
  | cons a t ih =>
    intro k p hnd hp hpo
    have hnd1 : a.id ∉ t.map (fun q => q.id) := (List.nodup_cons.mp hnd).1
    have hnd2 : (t.map (fun q => q.id)).Nodup := (List.nodup_cons.mp hnd).2
    unfold markFirstActive
    split_ifs with hao
    · have hao2 : a.id = o := by simpa using hao
      cases k with
      | zero =>
        simp only [List.get?] at hp ⊢
        cases hp; rfl
      | succ k =>
        exfalso
        simp only [List.get?] at hp
        have hpt : p ∈ t := List.get?_mem hp
        have : p.id ∈ t.map (fun q => q.id) := List.mem_map.mpr ⟨p, hpt, rfl⟩
        rw [hpo, ← hao2] at this
        exact hnd1 this
    · cases k with
      | zero =>
        exfalso
        simp only [List.get?] at hp
        cases hp
        exact hao (by simpa using hpo)
      | succ k =>
        simp only [List.get?] at hp ⊢
        exact ih k p hnd2 hp hpo

theorem sweep_le (b : Board) :
    ∀ (L : List (Nat × Nat)) (ps : List Player), PlayersLE ps (L.foldl (sweepStep b) ps) := by
  intro L
  induction L with
  | nil => intro ps; exact playersLE_refl ps
  | cons pos t ih =>
    intro ps
    rw [List.foldl_cons]
    refine playersLE_trans ?_ (ih (sweepStep b ps pos))
    unfold sweepStep
    cases (b pos.1 pos.2).owner with
    | none => exact playersLE_refl ps
    | some o => exact markFirstActive_le o ps

theorem sweep_ids (b : Board) :
    ∀ (L : List (Nat × Nat)) (ps : List Player),
      (L.foldl (sweepStep b) ps).map (fun p => p.id) = ps.map (fun p => p.id) := by
  intro L
  induction L with
  | nil => intro ps; rfl
  | cons pos t ih =>
    intro ps
    rw [List.foldl_cons, ih]
    unfold sweepStep
    cases (b pos.1 pos.2).owner with
    | none => rfl
    | some o => exact markFirstActive_ids o ps

/-- If some swept position is owned by the id of the player at index `k`
(ids being duplicate-free), that player ends the sweep active, with all
identity fields intact. -/
theorem sweep_marks (b : Board) (L : List (Nat × Nat)) (ps : List Player)
    (k : Nat) (p : Player) (pos : Nat × Nat)
    (hnd : (ps.map (fun q => q.id)).Nodup)
    (hp : ps.get? k = some p)
    (hmem : pos ∈ L)
    (hown : (b pos.1 pos.2).owner = some p.id) :
    ∃ q, (L.foldl (sweepStep b) ps).get? k = some q ∧
      q.id = p.id ∧ q.isSpectator = p.isSpectator ∧ q.hasPlayed = p.hasPlayed ∧
      q.isActive = true := by
  obtain ⟨L1, L2, rfl⟩ := List.append_of_mem hmem
  rw [List.foldl_append, List.foldl_cons]
  set l1 := L1.foldl (sweepStep b) ps with hl1
  have hle1 : PlayersLE ps l1 := sweep_le b L1 ps
  obtain ⟨q1, hq1, e1, _, _, e4, e5, _⟩ := hle1.2 k p hp
  have hnd1 : (l1.map (fun q => q.id)).Nodup := by rw [hl1, sweep_ids]; exact hnd
  have hstep : sweepStep b l1 pos = markFirstActive p.id l1 := by
    unfold sweepStep; rw [hown]
  rw [hstep]
  have hmark := markFirstActive_marks p.id l1 k q1 hnd1 hq1 e1
  have hle2 := sweep_le b L2 (markFirstActive p.id l1)
  obtain ⟨q2, hq2, f1, _, _, f4, f5, f6⟩ := hle2.2 k _ hmark
  refine ⟨q2, hq2, ?_, ?_, ?_, ?_⟩
  · rw [f1]; exact e1
  · rw [f4]; exact e4
  · rw [f5]; exact e5
  · exact f6 rfl

/-! ### Winner computation -/

theorem filter_length_eq_all {α : Type} (q : α → Bool) :
    ∀ l : List α, (l.filter q).length = l.length → ∀ x ∈ l, q x = true := by
  intro l
  induction l with
  | nil => intro _ x hx; exact absurd hx (List.not_mem_nil x)
  | cons a t ih =>
    intro h x hx
    by_cases hq : q a = true
    · rcases List.mem_cons.mp hx with rfl | hxt
      · exact hq
      · rw [List.filter_cons_of_pos hq] at h
        simp only [List.length_cons, Nat.add_right_cancel_iff] at h
        exact ih h x hxt
    · exfalso
      rw [List.filter_cons_of_neg hq] at h
      have := List.length_filter_le q t
      simp only [List.length_cons] at h
      omega

/-- Unfolding a declared winner: every non-spectator has played, at least
two non-spectators exist, and the winner forms the entire list of active
non-spectators. -/
theorem computeWinner_some_elim (players : List Player) (w : Player)
    (h : computeWinner players = some w) :
    (∀ p ∈ players, p.isSpectator = false → p.hasPlayed = true) ∧
    1 < (players.filter (fun p => !p.isSpectator)).length ∧
    players.filter (fun p => p.isActive && !p.isSpectator) = [w] := by
  simp only [computeWinner] at h
  split at h
  · rename_i hcond
    split at h
    · rename_i hlen1
      obtain ⟨a, ha⟩ := List.length_eq_one.mp hlen1
      rw [ha] at h
      simp only [List.head?, Option.some.injEq] at h
      subst h
      refine ⟨?_, hcond.2, ha⟩
      intro p hp hps
      have hpn : p ∈ players.filter (fun p => !p.isSpectator) :=
        List.mem_filter.mpr ⟨hp, by simp [hps]⟩
      have := filter_length_eq_all (fun p => p.hasPlayed) _ hcond.1 p hpn
      exact this
    · simp at h
  · simp at h

/-! ### Small list-index helpers -/

theorem list_set_same {α : Type} :
    ∀ (l : List α) (n : Nat) (a : α), l.get? n = some a → l.set n a = l := by
  intro l
  induction l with
  | nil => intro n a h; simp [List.get?] at h
  | cons x t ih =>
    intro n a h
    cases n with
    | zero => simp only [List.get?] at h; cases h; rfl
    | succ n =>
      simp only [List.get?] at h
      simp [List.set, ih n a h]

theorem get?_lt_length {α : Type} {l : List α} {n : Nat} {a : α}
    (h : l.get? n = some a) : n < l.length := by
  by_contra hge
  rw [List.get?_eq_none.mpr (Nat.le_of_not_lt hge)] at h
  exact Option.noConfusion h

/-- Membership in the row-major position list is exactly in-bounds-ness. -/
theorem mem_allPositions (g : GridSize) (i j : Nat) :
    (i, j) ∈ allPositions g ↔ i < g.rows ∧ j < g.cols := by
  unfold allPositions
  simp [List.mem_flatMap, List.mem_map, List.mem_range, Prod.ext_iff]

/-- With duplicate-free ids, `find?` by the id of the element at index `k`
returns exactly that element. -/
theorem find_by_id_of_nodup :
    ∀ (l : List Player) (k : Nat) (p : Player),
      (l.map (fun q => q.id)).Nodup → l.get? k = some p →
      l.find? (fun q => q.id == p.id) = some p := by
  intro l
  induction l with
  | nil => intro k p _ h; simp [List.get?] at h
  | cons a t ih =>
    intro k p hnd hp
    have hnd1 : a.id ∉ t.map (fun q => q.id) := (List.nodup_cons.mp hnd).1
    have hnd2 : (t.map (fun q => q.id)).Nodup := (List.nodup_cons.mp hnd).2
    cases k with
    | zero =>
      simp only [List.get?] at hp
      cases hp
      simp [List.find?]
    | succ k =>
      simp only [List.get?] at hp
      have hne2 : (a.id == p.id) = false := by
        cases hx : (a.id == p.id)
        · rfl
        · exfalso
          have heq : a.id = p.id := by simpa using hx
          have hpt : p ∈ t := List.get?_mem hp
          exact hnd1 (heq ▸ List.mem_map.mpr ⟨p, hpt, rfl⟩)
      simp only [List.find?_cons, hne2]
      exact ih k p hnd2 hp

/-! ### Claim C2 -/

/-- C2: for every grid with rows ≥ 2 and cols ≥ 2 and every in-bounds
cell, `getCriticalMass` returns the number of orthogonal in-bounds
neighbours of the cell: 2 for a corner, 3 for a non-corner edge cell and
4 for an interior cell. -/
theorem c2_critical_mass_neighbors (g : GridSize) (row col : Nat)
    (h2r : 2 ≤ g.rows) (h2c : 2 ≤ g.cols) (hr : row < g.rows) (hc : col < g.cols) :
    getCriticalMass row col g = (neighborsList g row col).length ∧
    ((row = 0 ∨ row = g.rows - 1) ∧ (col = 0 ∨ col = g.cols - 1) →
      getCriticalMass row col g = 2) ∧
    (((row = 0 ∨ row = g.rows - 1) ∧ ¬(col = 0 ∨ col = g.cols - 1)) ∨
      (¬(row = 0 ∨ row = g.rows - 1) ∧ (col = 0 ∨ col = g.cols - 1)) →
      getCriticalMass row col g = 3) ∧
    (¬(row = 0 ∨ row = g.rows - 1) ∧ ¬(col = 0 ∨ col = g.cols - 1) →
      getCriticalMass row col g = 4) := by
  refine ⟨(length_neighborsList g row col hr hc).symm, ?_, ?_, ?_⟩ <;>
    · intro h
      unfold getCriticalMass
      split_ifs <;> omega

/-- Witness for C2 on a 3×3 grid: corner, edge and interior cells. -/
theorem c2_critical_mass_neighbors_witness :
    getCriticalMass 0 0 (GridSize.mk 3 3) = 2 ∧
    getCriticalMass 0 1 (GridSize.mk 3 3) = 3 ∧
    getCriticalMass 1 1 (GridSize.mk 3 3) = 4 :=
  ⟨(c2_critical_mass_neighbors (GridSize.mk 3 3) 0 0 (by decide) (by decide)
      (by decide) (by decide)).2.1 (by decide),
   (c2_critical_mass_neighbors (GridSize.mk 3 3) 0 1 (by decide) (by decide)
      (by decide) (by decide)).2.2.1 (by decide),
   (c2_critical_mass_neighbors (GridSize.mk 3 3) 1 1 (by decide) (by decide)
      (by decide) (by decide)).2.2.2 (by decide)⟩

/-! ### Claim C8 -/

/-- C8: joining is idempotent per identity — a join with an id already
present in the room's player sequence leaves the room (player list
included) unchanged. -/
theorem c8_join_idempotent (room : Room) (sid nm : String) (adm : Bool)
    (h : ∃ p ∈ room.players, p.id = sid) :
    joinRoom room sid nm adm = room := by
  have hcond : (room.players.find? (fun p => p.id == sid)).isSome = true := by
    rw [List.find?_isSome]
    obtain ⟨p, hp, hid⟩ := h
    exact ⟨p, hp, by simp [hid]⟩
  unfold joinRoom
  rw [if_pos hcond]

/-- Witness for C8: Alice rejoining her own room changes nothing. -/
theorem c8_join_idempotent_witness : joinRoom w7Room "A" "Alice" true = w7Room :=
  c8_join_idempotent w7Room "A" "Alice" true (by decide)

/-! ### Claim C5 -/

/-- C5 is a code bug: on timer expiry the engine advances the turn first
and only then formats the skip notice from `players[currentTurn]`, so the
notice names the NEW mover (Bob), not the skipped mover (Alice). -/
theorem c5_timeout_notice_names_new_mover :
    (timerExpireOutcome c5Room).1.currentTurn = 1 ∧
    (timerExpireOutcome c5Room).2 = some "Bob" ∧
    (c5Room.players.get? c5Room.currentTurn).map (fun p => p.name) = some "Alice" := by
  decide

/-! ### Claim C6 -/

/-- C6 is a code bug: the disconnect handler tests
`players[currentTurn]?.id === socket.id` only after removing the player,
so the test can never succeed and the skip path never runs.  With mover
Bob (index 1) disconnecting, the code leaves `currentTurn = 1`, now out
of range for the single remaining player, while the claimed skip path
would have advanced it to 0. -/
theorem c6_disconnect_skip_never_fires :
    (handleDisconnect c6Room "B").map
      (fun r => (r.players.map (fun p => p.id), r.currentTurn)) = some (["A"], 1) ∧
    (skipPlayerTurn { c6Room with players := [pAlice] }).currentTurn = 0 := by
  decide

/-! ### Claim C10 -/

/-- C10: under the in-bounds precondition on the move target, every
position the cascade can dequeue is in-bounds: the initial queue is
in-bounds, every listed neighbour of an in-bounds cell is in-bounds, and
an explosion of an in-bounds cell enqueues in-bounds positions only
(each neighbour is fed and enqueued only behind the explicit bounds
guard). -/
theorem c10_cascade_in_bounds (g : GridSize) (row col : Nat) (b : Board)
    (hrow : row < g.rows) (hcol : col < g.cols) :
    (∀ p ∈ ([(row, col)] : List (Nat × Nat)), inBoundsP g p) ∧
    (∀ p ∈ neighborsList g row col, inBoundsP g p) ∧
    (∀ (r c : Nat) (rest : List (Nat × Nat)),
      inBoundsP g (r, c) → (∀ p ∈ rest, inBoundsP g p) →
      ∀ p ∈ rest ++ (explodeAt g b r c).2, inBoundsP g p) := by
  refine ⟨?_, neighborsList_inBounds g row col hrow hcol, ?_⟩
  · intro p hp
    rcases List.mem_singleton.mp hp with rfl
    exact ⟨hrow, hcol⟩
  · intro r c rest hrc hrest p hp
    rcases List.mem_append.mp hp with h1 | h2
    · exact hrest p h1
    · obtain ⟨-, -, extra, hq, hsub⟩ := explodeFold_spec g ((b r c).owner) (neighborsList g r c)
        (setCell b r c { count := 0, owner := none }) []
        (neighborsList_nodup g r c hrc.1 hrc.2)
      have hq2 : (explodeAt g b r c).2 = [] ++ extra := hq
      rw [hq2] at h2
      simp only [List.nil_append] at h2
      exact neighborsList_inBounds g r c hrc.1 hrc.2 p (hsub p h2)

/-- Witness for C10: a concrete in-bounds target on a 2×2 grid. -/
theorem c10_cascade_in_bounds_witness : inBoundsP (GridSize.mk 2 2) (1, 0) :=
  (c10_cascade_in_bounds (GridSize.mk 2 2) 1 0 emptyBoard (by decide) (by decide)).1
    (1, 0) (by decide)

/-! ### Claim C4 -/

/-- C4: `processMove` fails with exactly one of four errors, checked in
order — GameNotActive iff the game is not started; otherwise NotYourTurn
iff the caller is not the player at `currentTurn`; otherwise
SpectatorForbidden iff the caller is a spectator; otherwise InvalidMove
iff the target cell is owned by a different player — and every error
leaves the room unchanged. -/
theorem c4_move_error_taxonomy (fuel : Nat) (room : Room) (pid : String) (row col : Nat)
    (hlen : room.currentTurn < room.players.length)
    (hids : (room.players.map (fun p => p.id)).Nodup) :
    (∀ r2 e, processMove fuel room pid row col = some (r2, Except.error e) → r2 = room) ∧
    (processMove fuel room pid row col =
        some (room, Except.error MoveError.gameNotActive) ↔
      room.gameStarted = false) ∧
    (room.gameStarted = true →
      (processMove fuel room pid row col =
          some (room, Except.error MoveError.notYourTurn) ↔
        (room.players.get ⟨room.currentTurn, hlen⟩).id ≠ pid)) ∧
    (room.gameStarted = true → (room.players.get ⟨room.currentTurn, hlen⟩).id = pid →
      (processMove fuel room pid row col =
          some (room, Except.error MoveError.spectatorForbidden) ↔
        (room.players.get ⟨room.currentTurn, hlen⟩).isSpectator = true)) ∧
    (room.gameStarted = true → (room.players.get ⟨room.currentTurn, hlen⟩).id = pid →
      (room.players.get ⟨room.currentTurn, hlen⟩).isSpectator = false →
      (processMove fuel room pid row col =
          some (room, Except.error MoveError.invalidMove) ↔
        ((room.board row col).owner ≠ none ∧
          (room.board row col).owner ≠ some pid))) := by
  have hcp : room.players.get? room.currentTurn =
      some (room.players.get ⟨room.currentTurn, hlen⟩) := List.get?_eq_get hlen
  set cp := room.players.get ⟨room.currentTurn, hlen⟩ with hcpdef
  have hcp2 : room.players[room.currentTurn]? = some cp := by
    rw [← List.get?_eq_getElem?]; exact hcp
  -- closed forms of processMove in each regime
  have e0 : room.gameStarted = false →
      processMove fuel room pid row col =
        some (room, Except.error MoveError.gameNotActive) := by
    intro hgs; simp [processMove, hgs]
  have e1 : room.gameStarted = true → cp.id ≠ pid →
      processMove fuel room pid row col =
        some (room, Except.error MoveError.notYourTurn) := by
    intro hgs hid; simp [processMove, hgs, hcp2, hid]
  have hfind : cp.id = pid → room.players.find? (fun p => p.id == pid) = some cp := by
    intro hid
    have h0 := find_by_id_of_nodup room.players room.currentTurn cp hids hcp
    rw [hid] at h0
    exact h0
  have e2 : room.gameStarted = true → cp.id = pid → cp.isSpectator = true →
      processMove fuel room pid row col =
        some (room, Except.error MoveError.spectatorForbidden) := by
    intro hgs hid hsp
    simp [processMove, hgs, hcp2, hid, hfind hid, hsp]
  have e3 : room.gameStarted = true → cp.id = pid → cp.isSpectator = false →
      ((room.board row col).owner ≠ none ∧ (room.board row col).owner ≠ some pid) →
      processMove fuel room pid row col =
        some (room, Except.error MoveError.invalidMove) := by
    intro hgs hid hsp hown
    simp [processMove, hgs, hcp2, hid, hfind hid, hsp, hown]
  have e4 : room.gameStarted = true → cp.id = pid → cp.isSpectator = false →
      ¬ ((room.board row col).owner ≠ none ∧ (room.board row col).owner ≠ some pid) →
      processMove fuel room pid row col =
        (moveBody fuel room pid row col cp).map (fun x => (x.1, Except.ok x.2)) := by
    intro hgs hid hsp hown
    simp [processMove, hgs, hcp2, hid, hfind hid, hsp, hown]
  -- the four mutually exclusive error regimes
  refine ⟨?_, ?_, ?_, ?_, ?_⟩
  · -- errors never mutate the room
    intro r2 e h
    cases hgs : room.gameStarted
    · rw [e0 hgs] at h
      simp only [Option.some.injEq, Prod.mk.injEq] at h
      exact h.1.symm
    · by_cases hid : cp.id = pid
      · by_cases hsp : cp.isSpectator = true
        · rw [e2 hgs hid hsp] at h
          simp only [Option.some.injEq, Prod.mk.injEq] at h
          exact h.1.symm
        · have hsp2 : cp.isSpectator = false := by
            cases hb : cp.isSpectator
            · rfl
            · exact absurd hb hsp
          by_cases hown : (room.board row col).owner ≠ none ∧
              (room.board row col).owner ≠ some pid
          · rw [e3 hgs hid hsp2 hown] at h
            simp only [Option.some.injEq, Prod.mk.injEq] at h
            exact h.1.symm
          · rw [e4 hgs hid hsp2 hown] at h
            cases hmb : moveBody fuel room pid row col cp with
            | none => rw [hmb] at h; simp at h
            | some pr => rw [hmb] at h; simp at h
      · rw [e1 hgs hid] at h
        simp only [Option.some.injEq, Prod.mk.injEq] at h
        exact h.1.symm
  · constructor
    · intro h
      cases hgs : room.gameStarted
      · rfl
      · exfalso
        by_cases hid : cp.id = pid
        · by_cases hsp : cp.isSpectator = true
          · rw [e2 hgs hid hsp] at h; simp at h
          · have hsp2 : cp.isSpectator = false := by
              cases hb : cp.isSpectator
              · rfl
              · exact absurd hb hsp
            by_cases hown : (room.board row col).owner ≠ none ∧
                (room.board row col).owner ≠ some pid
            · rw [e3 hgs hid hsp2 hown] at h; simp at h
            · rw [e4 hgs hid hsp2 hown] at h
              cases hmb : moveBody fuel room pid row col cp with
              | none => rw [hmb] at h; simp at h
              | some pr => rw [hmb] at h; simp at h
        · rw [e1 hgs hid] at h; simp at h
    · exact e0
  · intro hgs
    constructor
    · intro h
      by_contra hid
      have hid2 : cp.id = pid := hid
      by_cases hsp : cp.isSpectator = true
      · rw [e2 hgs hid2 hsp] at h; simp at h
      · have hsp2 : cp.isSpectator = false := by
          cases hb : cp.isSpectator
          · rfl
          · exact absurd hb hsp
        by_cases hown : (room.board row col).owner ≠ none ∧
            (room.board row col).owner ≠ some pid
        · rw [e3 hgs hid2 hsp2 hown] at h; simp at h
        · rw [e4 hgs hid2 hsp2 hown] at h
          cases hmb : moveBody fuel room pid row col cp with
          | none => rw [hmb] at h; simp at h
          | some pr => rw [hmb] at h; simp at h
    · exact e1 hgs
  · intro hgs hid
    constructor
    · intro h
      by_contra hsp
      have hsp2 : cp.isSpectator = false := by
        cases hb : cp.isSpectator
        · rfl
        · exact absurd hb hsp
      by_cases hown : (room.board row col).owner ≠ none ∧
          (room.board row col).owner ≠ some pid
      · rw [e3 hgs hid hsp2 hown] at h; simp at h
      · rw [e4 hgs hid hsp2 hown] at h
        cases hmb : moveBody fuel room pid row col cp with
        | none => rw [hmb] at h; simp at h
        | some pr => rw [hmb] at h; simp at h
    · exact e2 hgs hid
  · intro hgs hid hsp
    constructor
    · intro h
      by_contra hown
      rw [e4 hgs hid hsp hown] at h
      cases hmb : moveBody fuel room pid row col cp with
      | none => rw [hmb] at h; simp at h
      | some pr => rw [hmb] at h; simp at h
    · exact e3 hgs hid hsp

/-- Witness for C4: Bob attempting to move on Alice's turn gets
NotYourTurn and the room is returned untouched. -/
theorem c4_move_error_taxonomy_witness :
    processMove 1 w7Room "B" 0 0 = some (w7Room, Except.error MoveError.notYourTurn) :=
  ((c4_move_error_taxonomy 1 w7Room "B" 0 0 (by decide) (by decide)).2.2.1 rfl).mpr
    (by decide)

/-! ### Claim C3 -/

/-- C3: a non-null winner is declared only when every non-spectator
player (in the state at declaration) has played and at least two
non-spectator players are present. -/
theorem c3_win_gating (fuel : Nat) (room : Room) (pid : String) (row col : Nat)
    (r2 : Room) (res : MoveResult) (w : Player)
    (h : processMove fuel room pid row col = some (r2, Except.ok res))
    (hw : res.winner = some w) :
    (∀ p ∈ r2.players, p.isSpectator = false → p.hasPlayed = true) ∧
    2 ≤ (r2.players.filter (fun p => !p.isSpectator)).length := by
  obtain ⟨cp, -, -, -, -, -, hmb⟩ := processMove_ok_elim fuel room pid row col r2 res h
  obtain ⟨board2, -, -, -, -, hwin, -⟩ :=
    moveBody_some_elim fuel room pid row col cp r2 res hmb
  rw [hwin] at hw
  obtain ⟨hall, hlen, -⟩ := computeWinner_some_elim r2.players w hw
  exact ⟨hall, hlen⟩

/-- Witness for C3: in the finished `w9Room` game both non-spectators are
present at the declaration. -/
theorem c3_win_gating_witness :
    2 ≤ (w9Pair.1.players.filter (fun p => !p.isSpectator)).length := by
  have h : processMove 4 w9Room "A" 0 1 = some (w9Pair.1, Except.ok w9Res) := rfl
  have hw : w9Res.winner = some w9Winner := rfl
  exact (c3_win_gating 4 w9Room "A" 0 1 w9Pair.1 w9Res w9Winner h hw).2

/-! ### Helper lemmas shared by the cascade claims -/

/-- Explosion of an in-bounds cell keeps the queue in-bounds. -/
theorem explode_queue_inBounds (g : GridSize) (b : Board) (r c : Nat)
    (rest : List (Nat × Nat)) (hrc : inBoundsP g (r, c))
    (hrest : ∀ p ∈ rest, inBoundsP g p) :
    ∀ p ∈ rest ++ (explodeAt g b r c).2, inBoundsP g p := by
  intro p hp
  rcases List.mem_append.mp hp with h1 | h2
  · exact hrest p h1
  · obtain ⟨-, -, extra, hq, hsub⟩ := explodeFold_spec g ((b r c).owner) (neighborsList g r c)
      (setCell b r c { count := 0, owner := none }) []
      (neighborsList_nodup g r c hrc.1 hrc.2)
    have hq2 : (explodeAt g b r c).2 = [] ++ extra := hq
    rw [hq2] at h2
    simp only [List.nil_append] at h2
    exact neighborsList_inBounds g r c hrc.1 hrc.2 p (hsub p h2)

/-- Full pointwise description of one explosion of an in-bounds cell. -/
theorem explodeAt_spec (g : GridSize) (b : Board) (r c : Nat)
    (hr : r < g.rows) (hc : c < g.cols) :
    (∀ p : Nat × Nat, p ∉ neighborsList g r c → p ≠ (r, c) →
      (explodeAt g b r c).1 p.1 p.2 = b p.1 p.2) ∧
    ((explodeAt g b r c).1 r c = { count := 0, owner := none }) ∧
    (∀ p ∈ neighborsList g r c, (explodeAt g b r c).1 p.1 p.2 =
      { count := (b p.1 p.2).count + 1, owner := (b r c).owner }) ∧
    (∀ p ∈ (explodeAt g b r c).2, p ∈ neighborsList g r c) := by
  obtain ⟨h1, h2, extra, hq, hsub⟩ := explodeFold_spec g ((b r c).owner) (neighborsList g r c)
    (setCell b r c { count := 0, owner := none }) []
    (neighborsList_nodup g r c hr hc)
  have hself := neighborsList_not_self g r c hr hc
  refine ⟨?_, ?_, ?_, ?_⟩
  · intro p hp hne
    have hx : (explodeAt g b r c).1 p.1 p.2 =
        setCell b r c { count := 0, owner := none } p.1 p.2 := h1 p hp
    rw [hx]
    unfold setCell
    have : ¬ (p.1 = r ∧ p.2 = c) := by
      intro hcon
      exact hne (Prod.ext hcon.1 hcon.2)
    simp [this]
  · have hx : (explodeAt g b r c).1 r c =
        setCell b r c { count := 0, owner := none } r c := h1 (r, c) hself
    rw [hx]
    unfold setCell
    simp
  · intro p hp
    have hx : (explodeAt g b r c).1 p.1 p.2 =
        { count := ((setCell b r c { count := 0, owner := none }) p.1 p.2).count + 1,
          owner := (b r c).owner } := h2 p hp
    rw [hx]
    have hne : p ≠ (r, c) := by
      intro hcon
      exact hself (hcon ▸ hp)
    have : ¬ (p.1 = r ∧ p.2 = c) := by
      intro hcon
      exact hne (Prod.ext hcon.1 hcon.2)
    unfold setCell
    simp [this]
  · intro p hp
    have hq2 : (explodeAt g b r c).2 = [] ++ extra := hq
    rw [hq2] at hp
    simp only [List.nil_append] at hp
    exact hsub p hp

/-! ### Claim C1 -/

/-- C1 counterexample: a concrete accepted move on a 3×3 board whose
cascade terminates after an over-threshold explosion.  The total orb
count before the move is 8; after the completed move it is still 8, not
8 + 1 — one orb was destroyed when (0,0) exploded holding 3 orbs at
critical mass 2. -/
theorem c1_total_not_conserved_cex :
    totalOrbs c1Room.gridSize c1Room.board = 8 ∧
    (processMove 32 c1Room "A" 1 1).map
      (fun x => (moveIsOk x.2, totalOrbs c1Room.gridSize x.1.board)) = some (true, 8) := by
  decide

/-- C1, amended: an accepted move whose cascade terminates increases the
total orb count by at most 1 (each explosion removes the exploding cell's
whole count but redistributes only its critical mass, so over-threshold
explosions destroy orbs). -/
theorem c1_total_le_succ (fuel : Nat) (room : Room) (pid : String) (row col : Nat)
    (r2 : Room) (res : MoveResult)
    (hrow : row < room.gridSize.rows) (hcol : col < room.gridSize.cols)
    (h : processMove fuel room pid row col = some (r2, Except.ok res)) :
    totalOrbs room.gridSize r2.board ≤ totalOrbs room.gridSize room.board + 1 := by
  obtain ⟨cp, -, -, -, -, -, hmb⟩ := processMove_ok_elim fuel room pid row col r2 res h
  obtain ⟨board2, hrc, hb, -, -, -, -⟩ :=
    moveBody_some_elim fuel room pid row col cp r2 res hmb
  set g := room.gridSize
  set board1 := setCell room.board row col
    { count := (room.board row col).count + 1, owner := some pid } with hb1
  have htot1 : totalOrbs g board1 = totalOrbs g room.board + 1 := by
    have hx : totalOrbs g board1 + (room.board row col).count =
        totalOrbs g room.board + ((room.board row col).count + 1) :=
      totalOrbs_setCell g room.board row col
        { count := (room.board row col).count + 1, owner := some pid } hrow hcol
    omega
  have hinv := runCascade_inv g
    (fun b q => totalOrbs g b ≤ totalOrbs g board1 ∧ ∀ p ∈ q, inBoundsP g p)
    (by
      intro b r c rest hP hlt
      exact ⟨hP.1, fun p hp => hP.2 p (List.mem_cons_of_mem _ hp)⟩)
    (by
      intro b r c rest hP hn
      have hrcin : inBoundsP g (r, c) := hP.2 (r, c) (List.mem_cons_self _ _)
      have hex := explodeAt_totalOrbs g b r c hrcin.1 hrcin.2
      refine ⟨?_, explode_queue_inBounds g b r c rest hrcin
        (fun p hp => hP.2 p (List.mem_cons_of_mem _ hp))⟩
      have hcm : getCriticalMass r c g ≤ (b r c).count := Nat.le_of_not_lt hn
      have hP1 := hP.1
      omega)
    fuel board1 _ board2
    (⟨le_refl _, by
      split_ifs <;> intro p hp
      · rcases List.mem_singleton.mp hp with rfl
        exact ⟨hrow, hcol⟩
      · exact absurd hp (List.not_mem_nil p)⟩)
    hrc
  rw [hb]
  have := hinv.1
  omega

/-- Witness for the amended C1 on the completed `w7Room` move. -/
theorem c1_total_le_succ_witness :
    totalOrbs w7Room.gridSize w7Pair.1.board ≤ totalOrbs w7Room.gridSize w7Room.board + 1 := by
  have h : processMove 4 w7Room "A" 0 0 = some (w7Pair.1, Except.ok w7Res) := rfl
  exact c1_total_le_succ 4 w7Room "A" 0 0 w7Pair.1 w7Res (by decide) (by decide) h

/-! ### Claim C7 -/

/-- C7: the cell invariant "count = 0 iff owner absent" holds on freshly
initialised boards (StartGame and PlayAgain), is preserved by the orb
placement of an accepted move, by each explosion step of the cascade, and
by a whole completed `processMove`. -/
theorem c7_cell_invariant_preserved :
    (∀ room : Room, cellInv room.gridSize (initializeGame room).board) ∧
    (∀ (room : Room) (rid : String) (r2 : Room),
      playAgain room rid = Except.ok r2 → cellInv r2.gridSize r2.board) ∧
    (∀ (g : GridSize) (b : Board) (row col : Nat) (pid : String),
      cellInv g b →
      cellInv g (setCell b row col { count := (b row col).count + 1, owner := some pid })) ∧
    (∀ (g : GridSize) (b : Board) (r c : Nat),
      cellInv g b → r < g.rows → c < g.cols →
      getCriticalMass r c g ≤ (b r c).count →
      cellInv g (explodeAt g b r c).1) ∧
    (∀ (fuel : Nat) (room : Room) (pid : String) (row col : Nat)
      (r2 : Room) (res : MoveResult),
      cellInv room.gridSize room.board →
      row < room.gridSize.rows → col < room.gridSize.cols →
      processMove fuel room pid row col = some (r2, Except.ok res) →
      cellInv room.gridSize r2.board) := by
  have hplace : ∀ (g : GridSize) (b : Board) (row col : Nat) (pid : String),
      cellInv g b →
      cellInv g (setCell b row col { count := (b row col).count + 1, owner := some pid }) := by
    intro g b row col pid hinv i hi j hj
    unfold setCell
    by_cases hij : i = row ∧ j = col
    · simp [hij]
    · simp only [hij, if_false]
      exact hinv i hi j hj
  have hexplode : ∀ (g : GridSize) (b : Board) (r c : Nat),
      cellInv g b → r < g.rows → c < g.cols →
      getCriticalMass r c g ≤ (b r c).count →
      cellInv g (explodeAt g b r c).1 := by
    intro g b r c hinv hr hc hcm
    obtain ⟨hout, hreset, hfed, -⟩ := explodeAt_spec g b r c hr hc
    intro i hi j hj
    by_cases hmem : (i, j) ∈ neighborsList g r c
    · have hval : (explodeAt g b r c).1 i j =
          { count := (b i j).count + 1, owner := (b r c).owner } := hfed (i, j) hmem
      rw [hval]
      have hne : neighborsList g r c ≠ [] := by
        intro h0
        rw [h0] at hmem
        exact absurd hmem (List.not_mem_nil _)
      have hlen1 : 1 ≤ (neighborsList g r c).length := by
        cases hL : neighborsList g r c with
        | nil => exact absurd hL hne
        | cons a t => simp
      have hcm1 : 1 ≤ getCriticalMass r c g := by
        rw [← length_neighborsList g r c hr hc]
        exact hlen1
      have hcount : (b r c).count ≠ 0 := by omega
      have howner : (b r c).owner ≠ none := by
        intro h0
        exact hcount ((hinv r hr c hc).mpr h0)
      obtain ⟨o, ho⟩ := Option.ne_none_iff_exists'.mp howner
      rw [ho]
      simp
    · by_cases hprc : (i, j) = (r, c)
      · rw [Prod.ext_iff] at hprc
        obtain ⟨rfl, rfl⟩ := hprc
        rw [hreset]
        simp
      · have hval : (explodeAt g b r c).1 i j = b i j := hout (i, j) hmem hprc
        rw [hval]
        exact hinv i hi j hj
  refine ⟨?_, ?_, hplace, hexplode, ?_⟩
  · intro room i hi j hj
    simp [initializeGame, emptyBoard]
  · intro room rid r2 h
    unfold playAgain at h
    split at h
    · exact absurd h (by simp)
    · split at h
      · exact absurd h (by simp)
      · simp only [Except.ok.injEq] at h
        subst h
        intro i hi j hj
        simp [emptyBoard]
  · intro fuel room pid row col r2 res hinv hrow hcol h
    obtain ⟨cp, -, -, -, -, -, hmb⟩ := processMove_ok_elim fuel room pid row col r2 res h
    obtain ⟨board2, hrc, hb, -, -, -, -⟩ :=
      moveBody_some_elim fuel room pid row col cp r2 res hmb
    set g := room.gridSize
    have heng := runCascade_inv g (fun b q => cellInv g b ∧ ∀ p ∈ q, inBoundsP g p)
      (by
        intro b r c rest hP hlt
        exact ⟨hP.1, fun p hp => hP.2 p (List.mem_cons_of_mem _ hp)⟩)
      (by
        intro b r c rest hP hn
        have hrcin : inBoundsP g (r, c) := hP.2 (r, c) (List.mem_cons_self _ _)
        exact ⟨hexplode g b r c hP.1 hrcin.1 hrcin.2 (Nat.le_of_not_lt hn),
          explode_queue_inBounds g b r c rest hrcin
            (fun p hp => hP.2 p (List.mem_cons_of_mem _ hp))⟩)
      fuel _ _ board2
      (⟨hplace g room.board row col pid hinv, by
        split_ifs <;> intro p hp
        · rcases List.mem_singleton.mp hp with rfl
          exact ⟨hrow, hcol⟩
        · exact absurd hp (List.not_mem_nil p)⟩)
      hrc
    rw [hb]
    exact heng.1

/-- Witness for C7: the completed `w7Room` move preserves the invariant. -/
theorem c7_cell_invariant_preserved_witness :
    cellInv w7Room.gridSize w7Pair.1.board := by
  have h : processMove 4 w7Room "A" 0 0 = some (w7Pair.1, Except.ok w7Res) := rfl
  exact c7_cell_invariant_preserved.2.2.2.2 4 w7Room "A" 0 0 w7Pair.1 w7Res
    (by decide) (by decide) (by decide) h

/-! ### Claim C9 -/

/-- C9: on a grid with both dimensions at least 2 (and duplicate-free
player ids, as `joinRoom` guarantees), whenever a completed `processMove`
declares a winner, that winner is the mover: the placed orb is the
mover's, every explosion transfers the fed neighbours to the mover, so
after the cascade the mover owns a cell, is marked active, and is
therefore the unique active non-spectator the win check selects. -/
theorem c9_winner_is_mover (fuel : Nat) (room : Room) (pid : String) (row col : Nat)
    (r2 : Room) (res : MoveResult) (w : Player)
    (hids : (room.players.map (fun p => p.id)).Nodup)
    (h2r : 2 ≤ room.gridSize.rows) (h2c : 2 ≤ room.gridSize.cols)
    (hrow : row < room.gridSize.rows) (hcol : col < room.gridSize.cols)
    (h : processMove fuel room pid row col = some (r2, Except.ok res))
    (hw : res.winner = some w) :
    w.id = pid := by
  obtain ⟨cp, hgs, hcp, hid2, hspec0, hownok, hmb⟩ :=
    processMove_ok_elim fuel room pid row col r2 res h
  obtain ⟨board2, hrc, hb, hplayers, hgsz, hwin, hresp⟩ :=
    moveBody_some_elim fuel room pid row col cp r2 res hmb
  set g := room.gridSize
  -- the mover is not a spectator
  have hfind2 : room.players.find? (fun p2 => p2.id == pid) = some cp := by
    have h0 := find_by_id_of_nodup room.players room.currentTurn cp hids hcp
    rw [hid2] at h0
    exact h0
  have hcpspec : cp.isSpectator = false := by
    rw [hfind2] at hspec0
    simpa using hspec0
  have hlen : room.currentTurn < room.players.length := get?_lt_length hcp
  set board1 := setCell room.board row col
    { count := (room.board row col).count + 1, owner := some pid } with hb1
  have hboard1own : (board1 row col).owner = some pid := by
    rw [hb1]
    unfold setCell
    simp
  -- through the cascade: queue in-bounds, every queued cell is the
  -- mover's or empty, and the mover owns some in-bounds cell
  have heng := runCascade_inv g
    (fun b q => (∀ p ∈ q, inBoundsP g p) ∧
      (∀ p ∈ q, (b p.1 p.2).owner = some pid ∨ (b p.1 p.2).count = 0) ∧
      (∃ wp : Nat × Nat, inBoundsP g wp ∧ (b wp.1 wp.2).owner = some pid))
    (by
      intro b r c rest hP hlt
      exact ⟨fun p hp => hP.1 p (List.mem_cons_of_mem _ hp),
        fun p hp => hP.2.1 p (List.mem_cons_of_mem _ hp), hP.2.2⟩)
    (by
      intro b r c rest hP hn
      have hrcin : inBoundsP g (r, c) := hP.1 (r, c) (List.mem_cons_self _ _)
      have hcm : getCriticalMass r c g ≤ (b r c).count := Nat.le_of_not_lt hn
      have hcm2 : 2 ≤ getCriticalMass r c g :=
        getCriticalMass_pos g r c h2r h2c hrcin.1 hrcin.2
      have hcount : (b r c).count ≠ 0 := by omega
      have howner : (b r c).owner = some pid := by
        rcases hP.2.1 (r, c) (List.mem_cons_self _ _) with h0 | h0
        · exact h0
        · exact absurd h0 hcount
      obtain ⟨hout, hreset, hfed, hsubL⟩ := explodeAt_spec g b r c hrcin.1 hrcin.2
      have hLlen : 2 ≤ (neighborsList g r c).length := by
        rw [length_neighborsList g r c hrcin.1 hrcin.2]
        exact hcm2
      obtain ⟨n0, hn0⟩ : ∃ n0, n0 ∈ neighborsList g r c := by
        cases hL : neighborsList g r c with
        | nil => rw [hL] at hLlen; simp at hLlen
        | cons a t => exact ⟨a, hL ▸ List.mem_cons_self a t⟩
      refine ⟨explode_queue_inBounds g b r c rest hrcin
        (fun p hp => hP.1 p (List.mem_cons_of_mem _ hp)), ?_, ?_⟩
      · intro p hp
        rcases List.mem_append.mp hp with hp1 | hp2
        · by_cases hmem : p ∈ neighborsList g r c
          · left
            have hval := hfed p hmem
            simp [hval, howner]
          · by_cases hprc : p = (r, c)
            · right
              have hval : (explodeAt g b r c).1 p.1 p.2 = { count := 0, owner := none } := by
                rw [hprc]
                exact hreset
              simp [hval]
            · rw [hout p hmem hprc]
              exact hP.2.1 p (List.mem_cons_of_mem _ hp1)
        · left
          have hval := hfed p (hsubL p hp2)
          simp [hval, howner]
      · refine ⟨n0, neighborsList_inBounds g r c hrcin.1 hrcin.2 n0 hn0, ?_⟩
        have hval := hfed n0 hn0
        simp [hval, howner])
    fuel board1 _ board2
    (by
      refine ⟨?_, ?_, ⟨(row, col), ⟨hrow, hcol⟩, hboard1own⟩⟩
      · split_ifs <;> intro p hp
        · rcases List.mem_singleton.mp hp with rfl
          exact ⟨hrow, hcol⟩
        · exact absurd hp (List.not_mem_nil p)
      · split_ifs <;> intro p hp
        · rcases List.mem_singleton.mp hp with rfl
          left
          exact hboard1own
        · exact absurd hp (List.not_mem_nil p))
    hrc
  obtain ⟨-, -, wp, hwpin, hwpown⟩ := heng
  -- the player list threaded through the move
  set cp1 : Player := { cp with hasPlayed := true } with hcp1
  set players1 := room.players.set room.currentTurn cp1 with hpl1
  have hget1 : players1.get? room.currentTurn = some cp1 :=
    List.get?_set_eq_of_lt cp1 hlen
  have hids1 : (players1.map (fun p => p.id)).Nodup := by
    have hx : (room.players.map (fun p => p.id)).get? room.currentTurn = some cp.id := by
      rw [List.get?_map, hcp]
      rfl
    have hmapset : players1.map (fun p => p.id) =
        (room.players.map (fun p => p.id)).set room.currentTurn cp.id := List.map_set
    rw [hmapset, list_set_same _ _ _ hx]
    exact hids
  set cp2 : Player := { cp1 with isActive := !cp1.hasPlayed } with hcp2
  set ps := players1.map (fun p => { p with isActive := !p.hasPlayed }) with hps
  have hps_get : ps.get? room.currentTurn = some cp2 := by
    rw [hps, List.get?_map, hget1]
    rfl
  have hids2 : (ps.map (fun p => p.id)).Nodup := by
    have : ps.map (fun p => p.id) = players1.map (fun p => p.id) := by
      rw [hps, List.map_map]
      rfl
    rw [this]
    exact hids1
  obtain ⟨wi, wj⟩ := wp
  have hmemw : (wi, wj) ∈ allPositions g := (mem_allPositions g wi wj).mpr ⟨hwpin.1, hwpin.2⟩
  have hownw : (board2 wi wj).owner = some cp2.id := by
    have hcpid : cp2.id = pid := hid2
    rw [hcpid]
    exact hwpown
  obtain ⟨q, hqget, hqid, hqspec, hqplayed, hqact⟩ :=
    sweep_marks board2 (allPositions g) ps room.currentTurn cp2 (wi, wj)
      hids2 hps_get hmemw hownw
  have hget2 : r2.players.get? room.currentTurn = some q := by
    rw [hplayers]
    exact hqget
  have hqidpid : q.id = pid := by
    rw [hqid]
    exact hid2
  have hqspec2 : q.isSpectator = false := by
    rw [hqspec]
    exact hcpspec
  -- the win check picks exactly this player
  rw [hwin] at hw
  obtain ⟨-, -, hact⟩ := computeWinner_some_elim r2.players w hw
  have hqmem : q ∈ r2.players := List.get?_mem hget2
  have hqfil : q ∈ r2.players.filter (fun p => p.isActive && !p.isSpectator) := by
    rw [List.mem_filter]
    refine ⟨hqmem, ?_⟩
    rw [hqact, hqspec2]
    rfl
  rw [hact] at hqfil
  have hqw : q = w := List.mem_singleton.mp hqfil
  rw [← hqw]
  exact hqidpid

/-- Witness for C9: in `w9Room` the declared winner carries the mover's
id "A". -/
theorem c9_winner_is_mover_witness : w9Winner.id = "A" := by
  have h : processMove 4 w9Room "A" 0 1 = some (w9Pair.1, Except.ok w9Res) := rfl
  have hw : w9Res.winner = some w9Winner := rfl
  exact c9_winner_is_mover 4 w9Room "A" 0 1 w9Pair.1 w9Res w9Winner
    (by decide) (by decide) (by decide) (by decide) (by decide) h hw
